import Mathlib

/-!
Verification development for the maritime-imports dashboard (PRY_Board.py).

The definitions below are a shallow embedding of the core logic of the
source file: the name normalizer (clean_name), the buyer/seller resolver
(determine_buyer), the loader's allow-list restriction (load_data), the
date-bound parser (parse_date_simple), the sequential filter pipeline of
update_dashboard / update_dropdown_options, the reset reducer
(handle_resets), and the grouped top-N aggregation
(groupby(...).sum().nlargest(n)).

Modelling conventions:
- Python strings are Lean String (ASCII fragment; Char.toUpper / isAlpha
  model Python upper() / regex \w on the ASCII range the data uses).
- Nullable cells (pandas NaN) are Option; pandas astype(str) turns NaN
  into the literal string "nan" (pyStr below).
- Calendar dates are encoded as the Nat key y*10000 + m*100 + d, which is
  order-isomorphic to chronological order for valid dates (m <= 12 < 100,
  d <= 31 < 100); a null/NaT date is Option.none.
- Numeric cells (after pd.to_numeric(errors=coerce)) are Option Rat.
-/

namespace Dashboard

/-- Python str.strip / regex whitespace on the ASCII range. -/
def isWS (c : Char) : Bool :=
  c == ' ' || c == '\t' || c == '\n' || c == '\r' || c == Char.ofNat 11 || c == Char.ofNat 12

/-- Trim leading and trailing whitespace from a char list. -/
def trimWS (l : List Char) : List Char :=
  ((l.dropWhile isWS).reverse.dropWhile isWS).reverse

/-- Python str.strip() on a string. -/
def pyStrip (s : String) : String :=
  ⟨trimWS s.data⟩

/-- pandas astype(str) on a nullable string cell: NaN prints as "nan". -/
def pyStr (o : Option String) : String :=
  match o with
  | some s => s
  | none => "nan"

/-- Python regex word character (\w) on the ASCII range. -/
def isWordChar (c : Char) : Bool :=
  c.isAlpha || c.isDigit || c == '_'

/-- Drop the token t from the front of l, if l starts with it. -/
def stripTok : List Char → List Char → Option (List Char)
  | [], l => some l
  | _ :: _, [] => none
  | t :: ts, c :: cs => if c = t then stripTok ts cs else none

/--
Try to match one suffix token of the regex \b(LTD|LLC|INC|CO|COMPANY|LIMITED|PRIVATE)\b\.?
at the head of l (the leading word boundary is checked by the caller).
Returns (previous-char-is-word-char flag for the resume position, rest of the input)
when the token plus its trailing word boundary and optional period match.
-/
def tokenTail (t : List Char) (l : List Char) : Option (Bool × List Char) :=
  match stripTok t l with
  | none => none
  | some r =>
    match r with
    | [] => some (true, [])
    | c :: cs =>
      if c = '.' then some (false, cs)
      else if isWordChar c then none
      else some (true, r)

/-- Try the alternatives of the suffix regex in the order they appear in the source. -/
def tryTokens (l : List Char) : Option (Bool × List Char) :=
  match tokenTail "LTD".data l with
  | some r => some r
  | none =>
  match tokenTail "LLC".data l with
  | some r => some r
  | none =>
  match tokenTail "INC".data l with
  | some r => some r
  | none =>
  match tokenTail "CO".data l with
  | some r => some r
  | none =>
  match tokenTail "COMPANY".data l with
  | some r => some r
  | none =>
  match tokenTail "LIMITED".data l with
  | some r => some r
  | none =>
  match tokenTail "PRIVATE".data l with
  | some r => some r
  | none => none

/--
The left-to-right scan of re.sub: at each position where a word boundary
precedes (prevW = false, since every token starts with a letter), try the
tokens; on a match drop it and resume after the match, otherwise copy one
character. Fuel bounds the recursion; fuel >= length of the input suffices
since every step consumes at least one character.
-/
def subAux : Nat → Bool → List Char → List Char
  | 0, _, l => l
  | fuel + 1, prevW, l =>
    match l with
    | [] => []
    | c :: cs =>
      if prevW then c :: subAux fuel (isWordChar c) cs
      else
        match tryTokens (c :: cs) with
        | some (pw, rest) => subAux fuel pw rest
        | none => c :: subAux fuel (isWordChar c) cs

/--
clean_name from the source: upper-case, remove the whole-word tokens
LTD, LLC, INC, CO, COMPANY, LIMITED, PRIVATE (each optionally followed by
a period) at word boundaries, then strip surrounding whitespace.
-/
def clean_name (s : String) : String :=
  ⟨trimWS (subAux s.data.length false (s.data.map Char.toUpper))⟩

/--
determine_buyer from the source. Each raw cell is str(...).strip() when
non-null, else the empty string; the chosen (trimmed) competitor text is
returned, with comparison done on clean_name forms.
-/
def determine_buyer (shipper intl dom : Option String) : String :=
  let sh := match shipper with | some v => pyStrip v | none => ""
  let ic := match intl with | some v => pyStrip v | none => ""
  let dc := match dom with | some v => pyStrip v | none => ""
  let shClean := clean_name sh
  let icClean := clean_name ic
  let dcClean := clean_name dc
  if ic != "" && icClean != shClean then ic
  else if dc != "" && dcClean != shClean then dc
  else if ic != "" then ic
  else if dc != "" then dc
  else "Unknown"

/-- Split a char list at every slash (model of str.split for the literal separator). -/
def splitSlash : List Char → List (List Char)
  | [] => [[]]
  | c :: cs =>
    if c = '/' then [] :: splitSlash cs
    else
      match splitSlash cs with
      | [] => [[c]]
      | h :: t => (c :: h) :: t

/-- Numeric value of a digit string (caller checks all chars are digits). -/
def digitsToNat (l : List Char) : Nat :=
  l.foldl (fun acc c => 10 * acc + (c.toNat - 48)) 0

/--
A month or day field of strptime %m / %d: one or two digit characters,
value between 1 and hi (CPython's _strptime regexes 1[0-2]|0[1-9]|[1-9]
and 3[01]|[12]d|0[1-9]|[1-9] match exactly these strings).
-/
def fieldTok (l : List Char) (hi : Nat) : Bool :=
  l.all Char.isDigit && (l.length == 1 || l.length == 2)
    && 1 ≤ digitsToNat l && digitsToNat l ≤ hi

/-- A year field of strptime %Y: exactly four digit characters. -/
def yearTok (l : List Char) : Bool :=
  l.all Char.isDigit && l.length == 4

/-- Gregorian leap-year rule used by datetime.date. -/
def isLeap (y : Nat) : Bool :=
  y % 4 == 0 && (y % 100 != 0 || y % 400 == 0)

/-- Days in a month, as validated by the datetime.date constructor. -/
def daysInMonth (y m : Nat) : Nat :=
  if m == 2 then (if isLeap y then 29 else 28)
  else if m == 4 || m == 6 || m == 9 || m == 11 then 30
  else 31

/--
parse_date_simple from the source: strptime(s.strip(), m/d/Y) with
every failure (including the empty string) returning none. Accepts one-
or two-digit month and day and a four-digit year, and requires the date
to be calendar-valid (datetime.date also requires year >= 1). A success
returns the order-isomorphic key y*10000 + m*100 + d.
-/
def parse_date_simple (s : String) : Option Nat :=
  if s == "" then none
  else
    match splitSlash (trimWS s.data) with
    | [ms, ds, ys] =>
      if fieldTok ms 12 && fieldTok ds 31 && yearTok ys then
        let m := digitsToNat ms
        let d := digitsToNat ds
        let y := digitsToNat ys
        if 1 ≤ y && d ≤ daysInMonth y m then some (y * 10000 + m * 100 + d)
        else none
      else none
    | _ => none

/-- A validated transaction record (one row of df after load_data). -/
structure Record where
  date : Option Nat
  buyer : String
  seller : Option String
  hsCode : String
  country : Option String
  category : Option String
  metricTons : Option Rat
  totalValue : Option Rat
  valPerKg : Option Rat
deriving DecidableEq, Repr

/-- A raw input row (the spreadsheet shape, after the out-of-scope cell coercions). -/
structure RawRow where
  date : Option Nat
  shipperDeclared : Option String
  intlCompetitor : Option String
  domCompetitor : Option String
  hsCode : Option String
  country : Option String
  category : Option String
  metricTons : Option Rat
  totalValue : Option Rat
  valPerKg : Option Rat
deriving DecidableEq, Repr

/-- The fixed allow-list of classification codes (target_hs_codes in the source). -/
def allowList : List String := ["854442", "854449", "854460", "740311"]

/-- Derive the per-row fields the way load_data does (Buyer, Seller, HS Code as str). -/
def mkRecord (r : RawRow) : Record :=
  { date := r.date
    buyer := determine_buyer r.shipperDeclared r.intlCompetitor r.domCompetitor
    seller := r.shipperDeclared
    hsCode := pyStr r.hsCode
    country := r.country
    category := r.category
    metricTons := r.metricTons
    totalValue := r.totalValue
    valPerKg := r.valPerKg }

/--
load_data from the source: derive Buyer/Seller per row, then keep only the
rows whose HS Code (as a string) is in the allow-list.
-/
def load_data (rows : List RawRow) : List Record :=
  (rows.map mkRecord).filter (fun r => allowList.contains r.hsCode)

/-- The mutable filter state: two date strings and five categorical selections. -/
structure FilterState where
  startDate : String
  endDate : String
  buyer : Option String
  seller : Option String
  hsCode : Option String
  country : Option String
  category : Option String
deriving DecidableEq, Repr

/-- The all-unset initial state (also the result of the global reset). -/
def initState : FilterState :=
  ⟨"", "", none, none, none, none, none⟩

/--
The sequential filter pipeline of update_dashboard (lines 725-752), also
duplicated verbatim at the top of update_dropdown_options (lines 637-665):
date bounds first (each applied only when the bound string is non-empty
and parses), then the five categorical equality filters, each applied only
when its selection is truthy.
-/
def applyFilters (s : FilterState) (rs : List Record) : List Record :=
  let f1 :=
    if s.startDate != "" then
      match parse_date_simple s.startDate with
      | some p => rs.filter (fun r => match r.date with
          | some d => decide (p ≤ d)
          | none => false)
      | none => rs
    else rs
  let f2 :=
    if s.endDate != "" then
      match parse_date_simple s.endDate with
      | some p => f1.filter (fun r => match r.date with
          | some d => decide (d ≤ p)
          | none => false)
      | none => f1
    else f1
  let f3 :=
    match s.buyer with
    | some b => if b != "" then f2.filter (fun r => r.buyer == b) else f2
    | none => f2
  let f4 :=
    match s.seller with
    | some v => if v != "" then f3.filter (fun r => pyStr r.seller == v) else f3
    | none => f3
  let f5 :=
    match s.hsCode with
    | some v => if v != "" then f4.filter (fun r => r.hsCode == v) else f4
    | none => f4
  let f6 :=
    match s.country with
    | some v => if v != "" then f5.filter (fun r => pyStr r.country == v) else f5
    | none => f5
  let f7 :=
    match s.category with
    | some v => if v != "" then f6.filter (fun r => pyStr r.category == v) else f6
    | none => f6
  f7

/-- The seven filter dimensions. -/
inductive Dim
  | dStart | dEnd | dBuyer | dSeller | dHs | dCountry | dCategory
deriving DecidableEq, Repr

/-- The fixed order in which the source applies the dimensions. -/
def codeOrder : List Dim :=
  [.dStart, .dEnd, .dBuyer, .dSeller, .dHs, .dCountry, .dCategory]

/-- Whether one record passes one dimension of the filter state (unset dimensions pass). -/
def matchesDim (d : Dim) (s : FilterState) (r : Record) : Bool :=
  match d with
  | .dStart =>
    match parse_date_simple s.startDate with
    | some p => (match r.date with | some x => decide (p ≤ x) | none => false)
    | none => true
  | .dEnd =>
    match parse_date_simple s.endDate with
    | some p => (match r.date with | some x => decide (x ≤ p) | none => false)
    | none => true
  | .dBuyer =>
    match s.buyer with
    | some b => if b != "" then r.buyer == b else true
    | none => true
  | .dSeller =>
    match s.seller with
    | some v => if v != "" then pyStr r.seller == v else true
    | none => true
  | .dHs =>
    match s.hsCode with
    | some v => if v != "" then r.hsCode == v else true
    | none => true
  | .dCountry =>
    match s.country with
    | some v => if v != "" then pyStr r.country == v else true
    | none => true
  | .dCategory =>
    match s.category with
    | some v => if v != "" then pyStr r.category == v else true
    | none => true

/-- Apply a single dimension of the filter state to a record list. -/
def applyDim (s : FilterState) (rs : List Record) (d : Dim) : List Record :=
  rs.filter (fun r => matchesDim d s r)

/-- Apply a list of dimensions left to right. -/
def applySeq (dims : List Dim) (s : FilterState) (rs : List Record) : List Record :=
  dims.foldl (applyDim s) rs

/-- A record passes the whole filter state iff it passes every dimension. -/
def matchesAll (s : FilterState) (r : Record) : Bool :=
  codeOrder.all (fun d => matchesDim d s r)

/-- The count shown as Total Transactions in update_dashboard. -/
def totalTransactions (s : FilterState) (rs : List Record) : Nat :=
  (applyFilters s rs).length

/-- The five dropdown option lists returned by update_dropdown_options. -/
structure DropdownOptions where
  buyers : List String
  sellers : List String
  hsCodes : List String
  countries : List String
  categories : List String
deriving DecidableEq, Repr

/-- Code-point lexicographic order on char lists (the order Python uses on strings). -/
def charListLe : List Char → List Char → Bool
  | [], _ => true
  | _ :: _, [] => false
  | a :: as, b :: bs =>
    if a.toNat < b.toNat then true
    else if b.toNat < a.toNat then false
    else charListLe as bs

/-- Python string comparison a <= b (code-point lexicographic). -/
def strLeB (a b : String) : Bool :=
  charListLe a.data b.data

/-- Insert a string into a list, before the first entry it compares at or below. -/
def insertStr (x : String) : List String → List String
  | [] => [x]
  | y :: ys => if strLeB x y then x :: y :: ys else y :: insertStr x ys

/-- Python sorted() on strings: stable sort by code-point lexicographic order. -/
def sortStr : List String → List String
  | [] => []
  | x :: xs => insertStr x (sortStr xs)

/--
update_dropdown_options from the source: narrow the dataset with the full
current filter state (the same pipeline as update_dashboard, including the
dimension's own current value), then for each dimension take the distinct
non-null values, drop the sentinel "Unknown" for the buyer list only, and
sort; the HS list is the allow-list codes present in the narrowed data.
-/
def update_dropdown_options (s : FilterState) (rs : List Record) : DropdownOptions :=
  let f := applyFilters s rs
  { buyers := sortStr (((f.map (fun r => r.buyer)).dedup).filter (fun b => b != "Unknown"))
    sellers := sortStr ((f.filterMap (fun r => r.seller)).dedup)
    hsCodes := sortStr (allowList.filter (fun c => (f.map (fun r => r.hsCode)).contains c))
    countries := sortStr ((f.filterMap (fun r => r.country)).dedup)
    categories := sortStr ((f.filterMap (fun r => r.category)).dedup) }

/-- The eight reset intents of handle_resets. -/
inductive ResetButton
  | global | rStart | rEnd | rBuyer | rSeller | rHs | rCountry | rCategory
deriving DecidableEq, Repr

/--
handle_resets from the source: the global button clears all seven fields
in one transition; each per-dimension button clears only its own field and
returns the current value of every other field (the date strings pass
through the falsy-to-empty normalization the source applies).
-/
def handle_resets (b : ResetButton) (s : FilterState) : FilterState :=
  let currentStart := if s.startDate != "" then s.startDate else ""
  let currentEnd := if s.endDate != "" then s.endDate else ""
  match b with
  | .global => ⟨"", "", none, none, none, none, none⟩
  | .rStart => ⟨"", currentEnd, s.buyer, s.seller, s.hsCode, s.country, s.category⟩
  | .rEnd => ⟨currentStart, "", s.buyer, s.seller, s.hsCode, s.country, s.category⟩
  | .rBuyer => ⟨currentStart, currentEnd, none, s.seller, s.hsCode, s.country, s.category⟩
  | .rSeller => ⟨currentStart, currentEnd, s.buyer, none, s.hsCode, s.country, s.category⟩
  | .rHs => ⟨currentStart, currentEnd, s.buyer, s.seller, none, s.country, s.category⟩
  | .rCountry => ⟨currentStart, currentEnd, s.buyer, s.seller, s.hsCode, none, s.category⟩
  | .rCategory => ⟨currentStart, currentEnd, s.buyer, s.seller, s.hsCode, s.country, none⟩

/--
The per-group sums of groupby(key)[value].sum(): pandas sorts the group
keys, and the per-group sum skips null cells (an all-null group sums to 0).
-/
def groupSums (pairs : List (String × Option Rat)) : List (String × Rat) :=
  let keys := sortStr (pairs.map Prod.fst).dedup
  keys.map (fun k => (k, ((pairs.filter (fun p => p.1 == k)).filterMap Prod.snd).sum))

/--
Extract a maximal-value entry from a list, preferring the earliest on
ties, together with the remaining entries in their original order (the
selection rule of Series.nlargest with keep=first).
-/
def pickMax : List (String × Rat) → Option ((String × Rat) × List (String × Rat))
  | [] => none
  | x :: xs =>
    match pickMax xs with
    | none => some (x, xs)
    | some (y, rest) => if x.2 < y.2 then some (y, x :: rest) else some (x, xs)

/-- Series.nlargest n keep=first: repeatedly extract the earliest maximal entry. -/
def nlargest : Nat → List (String × Rat) → List (String × Rat)
  | 0, _ => []
  | n + 1, l =>
    match pickMax l with
    | none => []
    | some (y, rest) => y :: nlargest n rest

/-- groupby(key)[value].sum().nlargest(n) from update_dashboard. -/
def topNBy (n : Nat) (pairs : List (String × Option Rat)) : List (String × Rat) :=
  nlargest n (groupSums pairs)

/-- The Top 10 Buyers by Volume series of update_dashboard (line 798). -/
def topBuyersByVolume (s : FilterState) (rs : List Record) : List (String × Rat) :=
  topNBy 10 ((applyFilters s rs).map (fun r => (r.buyer, r.metricTons)))

/-- The lexicographic (code-point) order as a proposition, for sortedness statements. -/
def lexLe (a b : String) : Prop :=
  strLeB a b = true

/-- The five categorical dimensions (everything but the date bounds). -/
def catDims : List Dim :=
  [.dBuyer, .dSeller, .dHs, .dCountry, .dCategory]

/-- A group-sum list whose keys are in ascending lexicographic order (the
order in which pandas groupby emits its key-sorted groups). -/
def keySorted (l : List (String × Rat)) : Prop :=
  l.Pairwise (fun a b => lexLe a.1 b.1)

/--
The buyer resolution exactly as the claim words it: trim the three fields,
then ordered precedence with first match winning, comparing normalized
forms and falling back to the sentinel. Stated for comparison with the
source definition determine_buyer.
-/
def resolveBuyerSpec (shipper intl dom : Option String) : String :=
  let sh := match shipper with | some v => pyStrip v | none => ""
  let ic := match intl with | some v => pyStrip v | none => ""
  let dc := match dom with | some v => pyStrip v | none => ""
  if ic ≠ "" ∧ clean_name ic ≠ clean_name sh then ic
  else if dc ≠ "" ∧ clean_name dc ≠ clean_name sh then dc
  else if ic ≠ "" then ic
  else if dc ≠ "" then dc
  else "Unknown"

/--
The strict MM/DD/YYYY shape as the claim words it: exactly two digits,
a slash, exactly two digits, a slash, exactly four digits (after trimming).
-/
def specFormatMMDDYYYY (s : String) : Bool :=
  match splitSlash (trimWS s.data) with
  | [ms, ds, ys] =>
    ms.all Char.isDigit && ms.length == 2 && ds.all Char.isDigit && ds.length == 2
      && ys.all Char.isDigit && ys.length == 4
  | _ => false

/-! ### Helper lemmas -/

theorem parse_empty : parse_date_simple "" = none := rfl

theorem charListLe_total : ∀ l1 l2 : List Char, charListLe l1 l2 = true ∨ charListLe l2 l1 = true := by
  intro l1
  induction l1 with
  | nil => intro l2; left; cases l2 <;> rfl
  | cons a as ih =>
    intro l2
    cases l2 with
    | nil => right; rfl
    | cons b bs =>
      rcases Nat.lt_trichotomy a.toNat b.toNat with h | h | h
      · left; simp [charListLe, h]
      · have h2 : ¬ a.toNat < b.toNat := by omega
        have h3 : ¬ b.toNat < a.toNat := by omega
        rcases ih bs with hc | hc
        · left; simp [charListLe, h2, h3, hc]
        · right; simp [charListLe, h2, h3, hc]
      · right; simp [charListLe, h]

theorem charListLe_trans :
    ∀ l1 l2 l3 : List Char,
      charListLe l1 l2 = true → charListLe l2 l3 = true → charListLe l1 l3 = true := by
  intro l1
  induction l1 with
  | nil => intro l2 l3 _ _; rfl
  | cons a as ih =>
    intro l2 l3 h12 h23
    cases l2 with
    | nil => simp [charListLe] at h12
    | cons b bs =>
      cases l3 with
      | nil => simp [charListLe] at h23
      | cons c cs =>
        simp only [charListLe] at h12 h23 ⊢
        by_cases h1 : a.toNat < b.toNat
        · by_cases h2 : b.toNat < c.toNat
          · simp [show a.toNat < c.toNat by omega]
          · by_cases h3 : c.toNat < b.toNat
            · simp [h2, h3] at h23
            · simp [show a.toNat < c.toNat by omega]
        · by_cases h1b : b.toNat < a.toNat
          · simp [h1, h1b] at h12
          · by_cases h2 : b.toNat < c.toNat
            · simp [show a.toNat < c.toNat by omega]
            · by_cases h3 : c.toNat < b.toNat
              · simp [h2, h3] at h23
              · have h4 : ¬ a.toNat < c.toNat := by omega
                have h5 : ¬ c.toNat < a.toNat := by omega
                simp only [h1, h1b, if_false] at h12
                simp only [h2, h3, if_false] at h23
                simp [h4, h5, ih bs cs h12 h23]

theorem strLeB_total (a b : String) : strLeB a b = true ∨ strLeB b a = true :=
  charListLe_total a.data b.data

theorem strLeB_trans {a b c : String} (h1 : strLeB a b = true) (h2 : strLeB b c = true) :
    strLeB a c = true :=
  charListLe_trans a.data b.data c.data h1 h2

theorem insertStr_perm (x : String) (l : List String) : (insertStr x l).Perm (x :: l) := by
  induction l with
  | nil => exact List.Perm.refl _
  | cons y ys ih =>
    by_cases h : strLeB x y = true
    · simp [insertStr, h]
    · simp only [insertStr, h, if_false]
      exact (ih.cons y).trans (List.Perm.swap x y ys)

theorem sortStr_perm (l : List String) : (sortStr l).Perm l := by
  induction l with
  | nil => exact List.Perm.refl _
  | cons x xs ih => exact (insertStr_perm x (sortStr xs)).trans (ih.cons x)

theorem mem_sortStr {a : String} {l : List String} : a ∈ sortStr l ↔ a ∈ l :=
  (sortStr_perm l).mem_iff

theorem nodup_sortStr {l : List String} (h : l.Nodup) : (sortStr l).Nodup :=
  (sortStr_perm l).symm.nodup h

theorem mem_insertStr {a x : String} {l : List String} :
    a ∈ insertStr x l ↔ a = x ∨ a ∈ l := by
  rw [(insertStr_perm x l).mem_iff, List.mem_cons]

theorem pairwise_insertStr (x : String) {l : List String} (h : l.Pairwise lexLe) :
    (insertStr x l).Pairwise lexLe := by
  induction l with
  | nil => simp [insertStr, List.pairwise_singleton]
  | cons y ys ih =>
    rcases List.pairwise_cons.mp h with ⟨hy, hys⟩
    by_cases hc : strLeB x y = true
    · simp only [insertStr, hc, if_true]
      refine List.pairwise_cons.mpr ⟨?_, h⟩
      intro z hz
      rcases List.mem_cons.mp hz with rfl | hz2
      · exact hc
      · exact strLeB_trans hc (hy z hz2)
    · simp only [insertStr, hc, if_false]
      refine List.pairwise_cons.mpr ⟨?_, ih hys⟩
      intro z hz
      rcases mem_insertStr.mp hz with rfl | hz2
      · rcases strLeB_total z y with ht | ht
        · exact absurd ht hc
        · exact ht
      · exact hy z hz2

theorem pairwise_sortStr (l : List String) : (sortStr l).Pairwise lexLe := by
  induction l with
  | nil => exact List.Pairwise.nil
  | cons x xs ih => exact pairwise_insertStr x ih

theorem step_start (s : FilterState) (rs : List Record) :
    (if s.startDate != "" then
      match parse_date_simple s.startDate with
      | some p => rs.filter (fun r => match r.date with | some d => decide (p ≤ d) | none => false)
      | none => rs
    else rs) = rs.filter (fun r => matchesDim .dStart s r) := by
  by_cases h : s.startDate = ""
  · simp [h, matchesDim, parse_empty, List.filter_true]
  · have hb : (s.startDate != "") = true := by simp [h]
    cases hp : parse_date_simple s.startDate with
    | none => simp [hb, hp, matchesDim, List.filter_true]
    | some p => simp [hb, hp, matchesDim]

theorem step_end (s : FilterState) (rs : List Record) :
    (if s.endDate != "" then
      match parse_date_simple s.endDate with
      | some p => rs.filter (fun r => match r.date with | some d => decide (d ≤ p) | none => false)
      | none => rs
    else rs) = rs.filter (fun r => matchesDim .dEnd s r) := by
  by_cases h : s.endDate = ""
  · simp [h, matchesDim, parse_empty, List.filter_true]
  · have hb : (s.endDate != "") = true := by simp [h]
    cases hp : parse_date_simple s.endDate with
    | none => simp [hb, hp, matchesDim, List.filter_true]
    | some p => simp [hb, hp, matchesDim]

theorem step_buyer (s : FilterState) (rs : List Record) :
    (match s.buyer with
     | some b => if b != "" then rs.filter (fun r => r.buyer == b) else rs
     | none => rs) = rs.filter (fun r => matchesDim .dBuyer s r) := by
  cases hb : s.buyer with
  | none => simp [matchesDim, hb, List.filter_true]
  | some v =>
    by_cases h : v = ""
    · simp [matchesDim, hb, h, List.filter_true]
    · have hv : (v != "") = true := by simp [h]
      simp [matchesDim, hb, hv]

theorem step_seller (s : FilterState) (rs : List Record) :
    (match s.seller with
     | some v => if v != "" then rs.filter (fun r => pyStr r.seller == v) else rs
     | none => rs) = rs.filter (fun r => matchesDim .dSeller s r) := by
  cases hb : s.seller with
  | none => simp [matchesDim, hb, List.filter_true]
  | some v =>
    by_cases h : v = ""
    · simp [matchesDim, hb, h, List.filter_true]
    · have hv : (v != "") = true := by simp [h]
      simp [matchesDim, hb, hv]

theorem step_hs (s : FilterState) (rs : List Record) :
    (match s.hsCode with
     | some v => if v != "" then rs.filter (fun r => r.hsCode == v) else rs
     | none => rs) = rs.filter (fun r => matchesDim .dHs s r) := by
  cases hb : s.hsCode with
  | none => simp [matchesDim, hb, List.filter_true]
  | some v =>
    by_cases h : v = ""
    · simp [matchesDim, hb, h, List.filter_true]
    · have hv : (v != "") = true := by simp [h]
      simp [matchesDim, hb, hv]

theorem step_country (s : FilterState) (rs : List Record) :
    (match s.country with
     | some v => if v != "" then rs.filter (fun r => pyStr r.country == v) else rs
     | none => rs) = rs.filter (fun r => matchesDim .dCountry s r) := by
  cases hb : s.country with
  | none => simp [matchesDim, hb, List.filter_true]
  | some v =>
    by_cases h : v = ""
    · simp [matchesDim, hb, h, List.filter_true]
    · have hv : (v != "") = true := by simp [h]
      simp [matchesDim, hb, hv]

theorem step_category (s : FilterState) (rs : List Record) :
    (match s.category with
     | some v => if v != "" then rs.filter (fun r => pyStr r.category == v) else rs
     | none => rs) = rs.filter (fun r => matchesDim .dCategory s r) := by
  cases hb : s.category with
  | none => simp [matchesDim, hb, List.filter_true]
  | some v =>
    by_cases h : v = ""
    · simp [matchesDim, hb, h, List.filter_true]
    · have hv : (v != "") = true := by simp [h]
      simp [matchesDim, hb, hv]

theorem applyFilters_eq_filter (s : FilterState) (rs : List Record) :
    applyFilters s rs = rs.filter (fun r => matchesAll s r) := by
  simp only [applyFilters]
  rw [step_start, step_end, step_buyer, step_seller, step_hs, step_country, step_category]
  simp only [List.filter_filter]
  apply List.filter_congr
  intro r _
  simp only [matchesAll, codeOrder, List.all_cons, List.all_nil, Bool.and_true]
  generalize matchesDim .dStart s r = b1
  generalize matchesDim .dEnd s r = b2
  generalize matchesDim .dBuyer s r = b3
  generalize matchesDim .dSeller s r = b4
  generalize matchesDim .dHs s r = b5
  generalize matchesDim .dCountry s r = b6
  generalize matchesDim .dCategory s r = b7
  revert b1 b2 b3 b4 b5 b6 b7
  decide

theorem applySeq_eq_filter (dims : List Dim) (s : FilterState) (rs : List Record) :
    applySeq dims s rs = rs.filter (fun r => dims.all (fun d => matchesDim d s r)) := by
  induction dims generalizing rs with
  | nil => simp [applySeq, List.filter_true]
  | cons d ds ih =>
    have hstep : applySeq (d :: ds) s rs = applySeq ds s (rs.filter (fun r => matchesDim d s r)) := rfl
    rw [hstep, ih]
    simp only [List.filter_filter]
    apply List.filter_congr
    intro r _
    simp only [List.all_cons]
    cases matchesDim d s r <;> simp

theorem all_perm {l1 l2 : List Dim} (h : l1.Perm l2) (f : Dim → Bool) : l1.all f = l2.all f := by
  rw [Bool.eq_iff_iff, List.all_eq_true, List.all_eq_true]
  constructor <;> intro hh x hx
  · exact hh x (h.mem_iff.mpr hx)
  · exact hh x (h.mem_iff.mp hx)

theorem pickMax_cons_ne (x : String × Rat) (xs : List (String × Rat)) :
    pickMax (x :: xs) ≠ none := by
  simp only [pickMax]
  cases pickMax xs with
  | none => simp
  | some yr =>
    cases yr with
    | mk y rest => by_cases h : x.2 < y.2 <;> simp [h]

theorem pickMax_none_eq_nil {l : List (String × Rat)} (h : pickMax l = none) : l = [] := by
  cases l with
  | nil => rfl
  | cons x xs => exact absurd h (pickMax_cons_ne x xs)

theorem pickMax_perm :
    ∀ {l : List (String × Rat)} {y rest}, pickMax l = some (y, rest) → l.Perm (y :: rest) := by
  intro l
  induction l with
  | nil => intro y rest h; simp [pickMax] at h
  | cons x xs ih =>
    intro y rest h
    simp only [pickMax] at h
    cases hp : pickMax xs with
    | none =>
      rw [hp] at h
      simp only [Option.some.injEq, Prod.mk.injEq] at h
      obtain ⟨h1, h2⟩ := h
      subst h1; subst h2
      exact List.Perm.refl _
    | some yr =>
      cases yr with
      | mk y0 rest0 =>
        rw [hp] at h
        by_cases hlt : x.2 < y0.2
        · simp only [hlt, if_true, Option.some.injEq, Prod.mk.injEq] at h
          obtain ⟨h1, h2⟩ := h
          subst h1; subst h2
          exact ((ih hp).cons x).trans (List.Perm.swap y0 x rest0)
        · simp only [hlt, if_false, Option.some.injEq, Prod.mk.injEq] at h
          obtain ⟨h1, h2⟩ := h
          subst h1; subst h2
          exact List.Perm.refl _

theorem pickMax_max :
    ∀ {l : List (String × Rat)} {y rest}, pickMax l = some (y, rest) →
      ∀ z ∈ rest, z.2 ≤ y.2 := by
  intro l
  induction l with
  | nil => intro y rest h; simp [pickMax] at h
  | cons x xs ih =>
    intro y rest h z hz
    simp only [pickMax] at h
    cases hp : pickMax xs with
    | none =>
      rw [hp] at h
      have hx : xs = [] := pickMax_none_eq_nil hp
      simp only [Option.some.injEq, Prod.mk.injEq] at h
      rw [← h.2, hx] at hz
      simp at hz
    | some yr =>
      cases yr with
      | mk y0 rest0 =>
        rw [hp] at h
        by_cases hlt : x.2 < y0.2
        · simp only [hlt, if_true, Option.some.injEq, Prod.mk.injEq] at h
          rw [← h.2] at hz
          rw [← h.1]
          rcases List.mem_cons.mp hz with rfl | hz2
          · exact le_of_lt hlt
          · exact ih hp z hz2
        · simp only [hlt, if_false, Option.some.injEq, Prod.mk.injEq] at h
          rw [← h.2] at hz
          rw [← h.1]
          have hz3 : z ∈ y0 :: rest0 := (pickMax_perm hp).mem_iff.mp hz
          rcases List.mem_cons.mp hz3 with rfl | hz4
          · exact le_of_not_lt hlt
          · exact le_trans (ih hp z hz4) (le_of_not_lt hlt)

theorem nlargest_subset :
    ∀ (n : Nat) (l : List (String × Rat)), ∀ x ∈ nlargest n l, x ∈ l := by
  intro n
  induction n with
  | zero => intro l x hx; simp [nlargest] at hx
  | succ m ih =>
    intro l x hx
    simp only [nlargest] at hx
    cases hp : pickMax l with
    | none => rw [hp] at hx; simp at hx
    | some yr =>
      cases yr with
      | mk y rest =>
        rw [hp] at hx
        rcases List.mem_cons.mp hx with rfl | hx2
        · exact (pickMax_perm hp).mem_iff.mpr (List.mem_cons_self x rest)
        · exact (pickMax_perm hp).mem_iff.mpr (List.mem_cons_of_mem y (ih rest x hx2))

theorem nlargest_sorted :
    ∀ (n : Nat) (l : List (String × Rat)),
      (nlargest n l).Pairwise (fun a b => b.2 ≤ a.2) := by
  intro n
  induction n with
  | zero => intro l; simp [nlargest]
  | succ m ih =>
    intro l
    simp only [nlargest]
    cases hp : pickMax l with
    | none => exact List.Pairwise.nil
    | some yr =>
      cases yr with
      | mk y rest =>
        refine List.pairwise_cons.mpr ⟨?_, ih rest⟩
        intro z hz
        exact pickMax_max hp z (nlargest_subset m rest z hz)

theorem mem_groupSums {pairs : List (String × Option Rat)} {g : String} {v : Rat} :
    (g, v) ∈ groupSums pairs ↔
      g ∈ pairs.map Prod.fst ∧
        v = ((pairs.filter (fun p => p.1 == g)).filterMap Prod.snd).sum := by
  simp only [groupSums]
  rw [List.mem_map]
  constructor
  · rintro ⟨k, hk, heq⟩
    have h1 : k = g := congrArg Prod.fst heq
    subst h1
    have h2 := congrArg Prod.snd heq
    exact ⟨List.mem_dedup.mp (mem_sortStr.mp hk), h2.symm⟩
  · rintro ⟨hg, rfl⟩
    exact ⟨g, mem_sortStr.mpr (List.mem_dedup.mpr hg), rfl⟩

theorem pickMax_split :
    ∀ {l : List (String × Rat)} {y rest}, pickMax l = some (y, rest) →
      ∃ l1 l2, l = l1 ++ y :: l2 ∧ rest = l1 ++ l2 ∧ ∀ w ∈ l1, w.2 < y.2 := by
  intro l
  induction l with
  | nil => intro y rest h; simp [pickMax] at h
  | cons x xs ih =>
    intro y rest h
    simp only [pickMax] at h
    cases hp : pickMax xs with
    | none =>
      rw [hp] at h
      simp only [Option.some.injEq, Prod.mk.injEq] at h
      obtain ⟨h1, h2⟩ := h
      subst h1; subst h2
      exact ⟨[], xs, rfl, rfl, by simp⟩
    | some yr =>
      cases yr with
      | mk y0 rest0 =>
        rw [hp] at h
        by_cases hlt : x.2 < y0.2
        · simp only [hlt, if_true, Option.some.injEq, Prod.mk.injEq] at h
          obtain ⟨h1, h2⟩ := h
          subst h1; subst h2
          obtain ⟨m1, m2, he, hr, hm⟩ := ih hp
          refine ⟨x :: m1, m2, by simp [he], by simp [hr], ?_⟩
          intro w hw
          rcases List.mem_cons.mp hw with rfl | hw2
          · exact hlt
          · exact hm w hw2
        · simp only [hlt, if_false, Option.some.injEq, Prod.mk.injEq] at h
          obtain ⟨h1, h2⟩ := h
          subst h1; subst h2
          exact ⟨[], xs, rfl, rfl, by simp⟩

theorem nlargest_length :
    ∀ (n : Nat) (l : List (String × Rat)), (nlargest n l).length = min n l.length := by
  intro n
  induction n with
  | zero => intro l; simp [nlargest]
  | succ m ih =>
    intro l
    simp only [nlargest]
    cases hp : pickMax l with
    | none =>
      have hnil : l = [] := pickMax_none_eq_nil hp
      subst hnil; simp
    | some yr =>
      cases yr with
      | mk y rest =>
        have hlen : l.length = rest.length + 1 := by
          have := (pickMax_perm hp).length_eq
          simpa using this
        simp only [List.length_cons, ih rest, hlen]
        omega

theorem nlargest_nodup :
    ∀ (n : Nat) (l : List (String × Rat)), l.Nodup → (nlargest n l).Nodup := by
  intro n
  induction n with
  | zero => intro l _; simp [nlargest]
  | succ m ih =>
    intro l hl
    simp only [nlargest]
    cases hp : pickMax l with
    | none => simp
    | some yr =>
      cases yr with
      | mk y rest =>
        have hnd : (y :: rest).Nodup := ((pickMax_perm hp).nodup_iff).mp hl
        rcases List.nodup_cons.mp hnd with ⟨hy, hrest⟩
        refine List.nodup_cons.mpr ⟨?_, ih rest hrest⟩
        intro hmem
        exact hy (nlargest_subset m rest y hmem)

theorem nlargest_complete :
    ∀ (n : Nat) (l : List (String × Rat)),
      ∀ z ∈ l, z ∉ nlargest n l → ∀ y ∈ nlargest n l, z.2 ≤ y.2 := by
  intro n
  induction n with
  | zero => intro l z _ _ y hy; simp [nlargest] at hy
  | succ m ih =>
    intro l z hz hnz y hy
    simp only [nlargest] at hnz hy
    cases hp : pickMax l with
    | none => rw [hp] at hy; simp at hy
    | some yr =>
      cases yr with
      | mk y0 rest =>
        rw [hp] at hnz hy
        have hz2 : z ∈ rest := by
          have hmem : z ∈ y0 :: rest := (pickMax_perm hp).mem_iff.mp hz
          rcases List.mem_cons.mp hmem with rfl | h2
          · exact absurd (List.mem_cons_self z _) hnz
          · exact h2
        rcases List.mem_cons.mp hy with rfl | hy2
        · exact pickMax_max hp z hz2
        · have hnz2 : z ∉ nlargest m rest := fun hc => hnz (List.mem_cons_of_mem _ hc)
          exact ih rest z hz2 hnz2 y hy2

theorem nlargest_tie :
    ∀ (n : Nat) (l : List (String × Rat)), keySorted l →
      ∀ z ∈ l, z ∉ nlargest n l → ∀ y ∈ nlargest n l, z.2 = y.2 → lexLe y.1 z.1 := by
  intro n
  induction n with
  | zero => intro l _ z _ _ y hy _; simp [nlargest] at hy
  | succ m ih =>
    intro l hsort z hz hnz y hy heq
    simp only [nlargest] at hnz hy
    cases hp : pickMax l with
    | none => rw [hp] at hy; simp at hy
    | some yr =>
      cases yr with
      | mk y0 rest =>
        rw [hp] at hnz hy
        obtain ⟨l1, l2, hl, hr, hmax⟩ := pickMax_split hp
        have hz2 : z ∈ rest := by
          have hmem : z ∈ y0 :: rest := (pickMax_perm hp).mem_iff.mp hz
          rcases List.mem_cons.mp hmem with rfl | h2
          · exact absurd (List.mem_cons_self z _) hnz
          · exact h2
        have hsub : List.Sublist rest l := by
          rw [hl, hr]
          exact (List.sublist_cons_self y0 l2).append_left l1
        have hsort2 : keySorted rest := List.Pairwise.sublist hsub hsort
        rcases List.mem_cons.mp hy with rfl | hy2
        · have hz3 : z ∈ l1 ++ l2 := by rw [← hr]; exact hz2
          rcases List.mem_append.mp hz3 with h1 | h2
          · exact absurd heq (ne_of_lt (hmax z h1))
          · have hs := hsort
            rw [hl] at hs
            rcases List.pairwise_append.mp hs with ⟨_, hyl2, _⟩
            exact (List.pairwise_cons.mp hyl2).1 z h2
        · have hnz2 : z ∉ nlargest m rest := fun hc => hnz (List.mem_cons_of_mem _ hc)
          exact ih rest hsort2 z hz2 hnz2 y hy2 heq

theorem nlargest_priority_sorted :
    ∀ (n : Nat) (l : List (String × Rat)), keySorted l →
      (nlargest n l).Pairwise (fun a b => b.2 < a.2 ∨ (a.2 = b.2 ∧ lexLe a.1 b.1)) := by
  intro n
  induction n with
  | zero => intro l _; simp [nlargest]
  | succ m ih =>
    intro l hsort
    simp only [nlargest]
    cases hp : pickMax l with
    | none => simp
    | some yr =>
      cases yr with
      | mk y0 rest =>
        obtain ⟨l1, l2, hl, hr, hmax⟩ := pickMax_split hp
        have hsub : List.Sublist rest l := by
          rw [hl, hr]
          exact (List.sublist_cons_self y0 l2).append_left l1
        have hsort2 : keySorted rest := List.Pairwise.sublist hsub hsort
        refine List.pairwise_cons.mpr ⟨?_, ih rest hsort2⟩
        intro y hy
        have hyr : y ∈ rest := nlargest_subset m rest y hy
        rcases lt_or_eq_of_le (pickMax_max hp y hyr) with hlt | heq2
        · left; exact hlt
        · right
          refine ⟨heq2.symm, ?_⟩
          have hy3 : y ∈ l1 ++ l2 := by rw [← hr]; exact hyr
          rcases List.mem_append.mp hy3 with h1 | h2
          · exact absurd heq2 (ne_of_lt (hmax y h1))
          · have hs := hsort
            rw [hl] at hs
            rcases List.pairwise_append.mp hs with ⟨_, hyl2, _⟩
            exact (List.pairwise_cons.mp hyl2).1 y h2

theorem groupSums_map_fst (pairs : List (String × Option Rat)) :
    (groupSums pairs).map Prod.fst = sortStr (pairs.map Prod.fst).dedup := by
  simp only [groupSums, List.map_map]
  have hcomp : (Prod.fst ∘ fun k : String =>
      (k, ((pairs.filter (fun p => p.1 == k)).filterMap Prod.snd).sum)) = id :=
    funext fun k => rfl
  rw [hcomp, List.map_id]

theorem groupSums_keys_nodup (pairs : List (String × Option Rat)) :
    ((groupSums pairs).map Prod.fst).Nodup := by
  rw [groupSums_map_fst]
  exact nodup_sortStr (List.nodup_dedup _)

theorem groupSums_nodup (pairs : List (String × Option Rat)) :
    (groupSums pairs).Nodup :=
  List.Nodup.of_map Prod.fst (groupSums_keys_nodup pairs)

theorem groupSums_keySorted (pairs : List (String × Option Rat)) :
    keySorted (groupSums pairs) := by
  unfold keySorted
  have h := pairwise_sortStr ((pairs.map Prod.fst).dedup)
  simp only [groupSums]
  rw [List.pairwise_map]
  simpa using h

theorem ifChain_bool_prop (a b ca cb cc : String) :
    (if a != "" && ca != cc then a
     else if b != "" && cb != cc then b
     else if a != "" then a
     else if b != "" then b
     else "Unknown")
    = (if a ≠ "" ∧ ca ≠ cc then a
       else if b ≠ "" ∧ cb ≠ cc then b
       else if a ≠ "" then a
       else if b ≠ "" then b
       else "Unknown") := by
  by_cases h1 : a = "" <;> by_cases h2 : ca = cc <;> by_cases h3 : b = "" <;>
    by_cases h4 : cb = cc <;> simp [h1, h2, h3, h4]

theorem ite_bne_self (t : String) : (if t != "" then t else "") = t := by
  by_cases h : t = "" <;> simp [h]

/-! ### Claim theorems -/

/--
C1: the buyer is resolved by ordered precedence with first match winning:
trimmed international competitor if non-empty and normalized-different from
the shipper, else trimmed domestic competitor under the same test, else the
non-empty international, else the non-empty domestic, else the sentinel
"Unknown"; in particular shipper "Acme Ltd" / international "Acme Limited" /
domestic "Beta Inc" resolves to "Beta Inc", and empty competitor fields
resolve to "Unknown".
-/
theorem C1_buyer_precedence :
    (∀ shipper intl dom : Option String,
      determine_buyer shipper intl dom = resolveBuyerSpec shipper intl dom) ∧
    determine_buyer (some "Acme Ltd") (some "Acme Limited") (some "Beta Inc") = "Beta Inc" ∧
    determine_buyer (some "Acme") (some "") (some "") = "Unknown" := by
  refine ⟨?_, by decide, by decide⟩
  intro shipper intl dom
  simp only [determine_buyer, resolveBuyerSpec]
  exact ifChain_bool_prop _ _ _ _ _

/--
C2: filtering is commutative conjunctive intersection: applying the seven
dimensions in any order yields the sequential result the code computes, and
a record survives iff every set dimension matches it.
-/
theorem C2_filter_commutative (s : FilterState) (rs : List Record) (dims : List Dim)
    (hperm : dims.Perm codeOrder) (r : Record) :
    applySeq dims s rs = applyFilters s rs ∧
    (r ∈ applyFilters s rs ↔ r ∈ rs ∧ matchesAll s r = true) := by
  constructor
  · rw [applySeq_eq_filter, applyFilters_eq_filter]
    apply List.filter_congr
    intro x _
    exact all_perm hperm _
  · rw [applyFilters_eq_filter]
    simp [List.mem_filter]

theorem C2_witness :
    applySeq [Dim.dCategory, .dCountry, .dHs, .dSeller, .dBuyer, .dEnd, .dStart]
        ⟨"01/01/2024", "12/31/2024", some "B1", none, some "854442", none, none⟩
        [(⟨some 20240115, "B1", some "S1", "854442", some "CN", some "Cu", some 10, some 5, none⟩ : Record),
         (⟨none, "B2", none, "740311", none, none, none, none, none⟩ : Record)]
      = applyFilters ⟨"01/01/2024", "12/31/2024", some "B1", none, some "854442", none, none⟩
        [(⟨some 20240115, "B1", some "S1", "854442", some "CN", some "Cu", some 10, some 5, none⟩ : Record),
         (⟨none, "B2", none, "740311", none, none, none, none, none⟩ : Record)] ∧
    ((⟨some 20240115, "B1", some "S1", "854442", some "CN", some "Cu", some 10, some 5, none⟩ : Record)
        ∈ applyFilters ⟨"01/01/2024", "12/31/2024", some "B1", none, some "854442", none, none⟩
          [(⟨some 20240115, "B1", some "S1", "854442", some "CN", some "Cu", some 10, some 5, none⟩ : Record),
           (⟨none, "B2", none, "740311", none, none, none, none, none⟩ : Record)] ↔
      (⟨some 20240115, "B1", some "S1", "854442", some "CN", some "Cu", some 10, some 5, none⟩ : Record)
          ∈ [(⟨some 20240115, "B1", some "S1", "854442", some "CN", some "Cu", some 10, some 5, none⟩ : Record),
             (⟨none, "B2", none, "740311", none, none, none, none, none⟩ : Record)] ∧
        matchesAll ⟨"01/01/2024", "12/31/2024", some "B1", none, some "854442", none, none⟩
          (⟨some 20240115, "B1", some "S1", "854442", some "CN", some "Cu", some 10, some 5, none⟩ : Record) = true) :=
  C2_filter_commutative _ _ _ (by decide) _

/--
C3: every record retained by the loader, and hence every record of any
filtered result, has its classification code in the allow-list
{854442, 854449, 854460, 740311}.
-/
theorem C3_allowlist_invariant (rows : List RawRow) (s : FilterState) (r : Record) :
    (r ∈ load_data rows → r.hsCode ∈ allowList) ∧
    (r ∈ applyFilters s (load_data rows) → r.hsCode ∈ allowList) := by
  have hload : r ∈ load_data rows → r.hsCode ∈ allowList := by
    intro h
    simp only [load_data, List.mem_filter] at h
    simpa using h.2
  refine ⟨hload, ?_⟩
  intro h
  rw [applyFilters_eq_filter] at h
  exact hload (List.mem_filter.mp h).1

theorem C3_witness :
    (mkRecord (⟨some 20240101, some "Ship Co", some "Intl Ltd", none, some "854442",
        some "CN", some "Copper", some 10, some 100, some 10⟩ : RawRow)).hsCode ∈ allowList :=
  (C3_allowlist_invariant
      [⟨some 20240101, some "Ship Co", some "Intl Ltd", none, some "854442",
        some "CN", some "Copper", some 10, some 100, some 10⟩]
      initState
      (mkRecord ⟨some 20240101, some "Ship Co", some "Intl Ltd", none, some "854442",
        some "CN", some "Copper", some 10, some 100, some 10⟩)).1 (by decide)

/--
C4: each dropdown option list is computed from the record set narrowed by
all currently active filters (the full state, including the dimension's own
value): it holds exactly the narrowed set's distinct non-null values of that
dimension, lexicographically sorted, with the sentinel "Unknown" excluded
from the buyer list only, and the classification-code list is exactly the
allow-list codes present in the narrowed set.
-/
theorem C4_dropdown_options (s : FilterState) (rs : List Record) :
    ((update_dropdown_options s rs).buyers.Pairwise lexLe ∧
     (update_dropdown_options s rs).buyers.Nodup ∧
     ∀ x, x ∈ (update_dropdown_options s rs).buyers ↔
       (x ∈ (applyFilters s rs).map (fun r => r.buyer) ∧ x ≠ "Unknown")) ∧
    ((update_dropdown_options s rs).sellers.Pairwise lexLe ∧
     (update_dropdown_options s rs).sellers.Nodup ∧
     ∀ x, x ∈ (update_dropdown_options s rs).sellers ↔
       ∃ r ∈ applyFilters s rs, r.seller = some x) ∧
    ((update_dropdown_options s rs).hsCodes.Pairwise lexLe ∧
     (update_dropdown_options s rs).hsCodes.Nodup ∧
     ∀ x, x ∈ (update_dropdown_options s rs).hsCodes ↔
       (x ∈ allowList ∧ x ∈ (applyFilters s rs).map (fun r => r.hsCode))) ∧
    ((update_dropdown_options s rs).countries.Pairwise lexLe ∧
     (update_dropdown_options s rs).countries.Nodup ∧
     ∀ x, x ∈ (update_dropdown_options s rs).countries ↔
       ∃ r ∈ applyFilters s rs, r.country = some x) ∧
    ((update_dropdown_options s rs).categories.Pairwise lexLe ∧
     (update_dropdown_options s rs).categories.Nodup ∧
     ∀ x, x ∈ (update_dropdown_options s rs).categories ↔
       ∃ r ∈ applyFilters s rs, r.category = some x) := by
  simp only [update_dropdown_options]
  refine ⟨⟨pairwise_sortStr _, nodup_sortStr (((List.nodup_dedup _).filter _)), ?_⟩,
    ⟨pairwise_sortStr _, nodup_sortStr (List.nodup_dedup _), ?_⟩,
    ⟨pairwise_sortStr _, nodup_sortStr ((by decide : allowList.Nodup).filter _), ?_⟩,
    ⟨pairwise_sortStr _, nodup_sortStr (List.nodup_dedup _), ?_⟩,
    ⟨pairwise_sortStr _, nodup_sortStr (List.nodup_dedup _), ?_⟩⟩
  · intro x
    simp [mem_sortStr, List.mem_filter, List.mem_dedup, bne_iff_ne]
  · intro x
    simp [mem_sortStr, List.mem_dedup, List.mem_filterMap]
  · intro x
    simp [mem_sortStr, List.mem_filter]
  · intro x
    simp [mem_sortStr, List.mem_dedup, List.mem_filterMap]
  · intro x
    simp [mem_sortStr, List.mem_dedup, List.mem_filterMap]

/--
C5: the name normalizer upper-cases, removes the whole-word tokens
LTD, LLC, INC, CO, COMPANY, LIMITED, PRIVATE (each optionally followed by a
period) only at word boundaries, and trims surrounding whitespace:
normalize("Acme Co.") = normalize("ACME") and "INCORPORATION" is never
truncated, so normalize("Incorporation LLC") differs from
normalize("Orporation").
-/
theorem C5_normalizer :
    clean_name "Acme Co." = "ACME" ∧ clean_name "ACME" = "ACME" ∧
    clean_name "Incorporation LLC" = "INCORPORATION" ∧
    clean_name "Orporation" = "ORPORATION" ∧
    clean_name "Incorporation LLC" ≠ clean_name "Orporation" ∧
    clean_name " acme ltd " = "ACME" ∧
    clean_name "X Ltd" = "X" ∧ clean_name "X Llc" = "X" ∧ clean_name "X Inc." = "X" ∧
    clean_name "X Co" = "X" ∧ clean_name "X Company" = "X" ∧ clean_name "X Limited" = "X" ∧
    clean_name "X Private" = "X" ∧ clean_name "ACMELTD" = "ACMELTD" := by
  decide

/--
C6 counterexample: the bound string "1/15/2024" is not in the strict
MM/DD/YYYY shape, yet parse_date_simple accepts it and it does impose a
date constraint (a January 1st record is filtered out), refuting the claim
that any string in another format yields no constraint.
-/
theorem C6_counterexample :
    specFormatMMDDYYYY "1/15/2024" = false ∧
    parse_date_simple "1/15/2024" = some 20240115 ∧
    applyFilters ⟨"1/15/2024", "", none, none, none, none, none⟩
        [(⟨some 20240101, "B", none, "854442", none, none, none, none, none⟩ : Record)] = [] := by
  refine ⟨by decide, by decide, by decide⟩

/--
C6 (amended): date-bound parsing accepts slash-separated dates with a one-
or two-digit month and day and a four-digit year, calendar-validated (so
"01/15/2024" and also "1/15/2024" parse); a bound that does not parse
(such as "13/40/2024" or the empty string) yields no constraint for that
bound while every other filter still applies; a start bound that parses to
p retains exactly the records of the otherwise-filtered set whose date is
at least p (inclusive).
-/
theorem C6_date_bound_parsing (s : FilterState) (rs : List Record) :
    (parse_date_simple s.startDate = none →
      applyFilters s rs = applyFilters { s with startDate := "" } rs) ∧
    (parse_date_simple s.endDate = none →
      applyFilters s rs = applyFilters { s with endDate := "" } rs) ∧
    (∀ p, parse_date_simple s.startDate = some p →
      applyFilters s rs = (applyFilters { s with startDate := "" } rs).filter
        (fun r => match r.date with | some d => decide (p ≤ d) | none => false)) ∧
    parse_date_simple "13/40/2024" = none ∧
    parse_date_simple "01/15/2024" = some 20240115 := by
  refine ⟨?_, ?_, ?_, by decide, by decide⟩
  · intro hp
    rw [applyFilters_eq_filter, applyFilters_eq_filter]
    apply List.filter_congr
    intro r _
    simp [matchesAll, codeOrder, matchesDim, hp, parse_empty]
  · intro hp
    rw [applyFilters_eq_filter, applyFilters_eq_filter]
    apply List.filter_congr
    intro r _
    simp [matchesAll, codeOrder, matchesDim, hp, parse_empty]
  · intro p hp
    rw [applyFilters_eq_filter, applyFilters_eq_filter, List.filter_filter]
    apply List.filter_congr
    intro r _
    simp only [matchesAll, codeOrder, List.all_cons, List.all_nil, Bool.and_true,
      matchesDim, hp, parse_empty]
    generalize (match r.date with | some d => decide (p ≤ d) | none => false) = b0
    generalize matchesDim .dEnd s r = b1
    cases b0 <;> simp

theorem C6_witness :
    applyFilters ⟨"13/40/2024", "", none, none, none, none, none⟩
        [(⟨some 20240101, "B", none, "854442", none, none, none, none, none⟩ : Record)] =
      applyFilters ⟨"", "", none, none, none, none, none⟩
        [(⟨some 20240101, "B", none, "854442", none, none, none, none, none⟩ : Record)] :=
  (C6_date_bound_parsing ⟨"13/40/2024", "", none, none, none, none, none⟩
      [(⟨some 20240101, "B", none, "854442", none, none, none, none, none⟩ : Record)]).1 (by decide)

/--
C7: resetting a single dimension clears only that dimension (dates to the
empty string, categorical dimensions to unset) and leaves every other
dimension's value unchanged (in particular resetting the buyer leaves the
country unchanged), while the global reset clears all seven fields in one
transition.
-/
theorem C7_reset_frame (s : FilterState) :
    handle_resets .global s = initState ∧
    handle_resets .rStart s = { s with startDate := "" } ∧
    handle_resets .rEnd s = { s with endDate := "" } ∧
    handle_resets .rBuyer s = { s with buyer := none } ∧
    handle_resets .rSeller s = { s with seller := none } ∧
    handle_resets .rHs s = { s with hsCode := none } ∧
    handle_resets .rCountry s = { s with country := none } ∧
    handle_resets .rCategory s = { s with category := none } ∧
    (handle_resets .rBuyer s).country = s.country := by
  cases s with
  | mk a b c d e f g =>
    simp only [handle_resets, ite_bne_self, initState]
    simp

/--
C8 counterexample: on the tied dataset Zed(100) before Ann(100), the top-1
list is [(Ann, 100)], not the first-encountered group Zed: pandas groupby
sorts the groups by key, and nlargest keeps the earliest entries of that
key-sorted series, so ties go to the lexicographically smallest group.
-/
theorem C8_counterexample :
    topNBy 1 [("Zed", some (100 : Rat)), ("Ann", some 100)] ≠ [("Zed", 100)] ∧
    topNBy 1 [("Zed", some (100 : Rat)), ("Ann", some 100)] = [("Ann", 100)] := by
  have h : topNBy 1 [("Zed", some (100 : Rat)), ("Ann", some 100)] = [("Ann", 100)] := by
    simp only [topNBy, groupSums, nlargest, pickMax, sortStr, insertStr, strLeB, charListLe,
      List.dedup, List.map, List.filter, List.filterMap, List.pwFilter, List.sum, List.foldr]
    norm_num
  refine ⟨?_, h⟩
  rw [h]
  decide

/--
C8 (amended): topNBy groups the records by the group key, sums the value
key per group (skipping null values), and returns exactly the n groups
with the largest sums (or all groups when fewer than n exist): each
returned pair is a distinct group with its true total, the output has
length min n (number of groups), every omitted group's sum is at most
every returned one, and on a tie the returned group's key is strictly
lexicographically smaller than the omitted group's (pandas sorts groups by
key and nlargest keeps the earliest of the key-sorted series), not the
first-encountered group; the output is ordered by descending sum with
equal sums in ascending key order; for buyers A(100), B(50), C(150) the
top 2 by volume is [(C, 150), (A, 100)].
-/
theorem C8_topN :
    topNBy 2 [("A", some (100 : Rat)), ("B", some 50), ("C", some 150)]
      = [("C", 150), ("A", 100)] ∧
    topNBy 1 [("Zed", some (100 : Rat)), ("Ann", some 100)] = [("Ann", 100)] ∧
    (∀ (n : Nat) (pairs : List (String × Option Rat)),
      (∀ g v, (g, v) ∈ topNBy n pairs →
        g ∈ pairs.map Prod.fst ∧
          v = ((pairs.filter (fun p => p.1 == g)).filterMap Prod.snd).sum) ∧
      (topNBy n pairs).Pairwise (fun a b => b.2 < a.2 ∨ (a.2 = b.2 ∧ lexLe a.1 b.1)) ∧
      (topNBy n pairs).Nodup ∧
      (topNBy n pairs).length = min n (groupSums pairs).length ∧
      (∀ z ∈ groupSums pairs, z ∉ topNBy n pairs → ∀ y ∈ topNBy n pairs, z.2 ≤ y.2) ∧
      (∀ z ∈ groupSums pairs, z ∉ topNBy n pairs → ∀ y ∈ topNBy n pairs,
        z.2 = y.2 → lexLe y.1 z.1 ∧ y.1 ≠ z.1)) := by
  refine ⟨?_, ?_, ?_⟩
  · simp only [topNBy, groupSums, nlargest, pickMax, sortStr, insertStr, strLeB, charListLe,
      List.dedup, List.map, List.filter, List.filterMap, List.pwFilter, List.sum, List.foldr]
    norm_num
    simp only [pickMax]
    norm_num
  · simp only [topNBy, groupSums, nlargest, pickMax, sortStr, insertStr, strLeB, charListLe,
      List.dedup, List.map, List.filter, List.filterMap, List.pwFilter, List.sum, List.foldr]
    norm_num
  · intro n pairs
    refine ⟨?_, ?_, ?_, ?_, ?_, ?_⟩
    · intro g v h
      exact mem_groupSums.mp (nlargest_subset n (groupSums pairs) (g, v) h)
    · exact nlargest_priority_sorted n (groupSums pairs) (groupSums_keySorted pairs)
    · exact nlargest_nodup n (groupSums pairs) (groupSums_nodup pairs)
    · exact nlargest_length n (groupSums pairs)
    · intro z hz hnz y hy
      exact nlargest_complete n (groupSums pairs) z hz hnz y hy
    · intro z hz hnz y hy heq
      refine ⟨nlargest_tie n (groupSums pairs) (groupSums_keySorted pairs) z hz hnz y hy heq, ?_⟩
      intro hk
      have hyg : y ∈ groupSums pairs := nlargest_subset n (groupSums pairs) y hy
      have hyz : y = z := List.inj_on_of_nodup_map (groupSums_keys_nodup pairs) hyg hz hk
      exact hnz (hyz ▸ hy)

/--
C9 counterexample: a competitor field with surrounding whitespace is NOT
preserved verbatim in the resolved buyer: for shipper "Zeta" and
international competitor " Acme " the stored buyer is the trimmed "Acme",
refuting the claim that the raw untrimmed text is stored.
-/
theorem C9_counterexample :
    determine_buyer (some "Zeta") (some " Acme ") none = "Acme" ∧
    determine_buyer (some "Zeta") (some " Acme ") none ≠ " Acme " := by
  refine ⟨by decide, by decide⟩

/--
C9 (amended): when resolver step 1 fires, the stored buyer is the TRIMMED
text of the international competitor field (leading and trailing whitespace
removed; str(...).strip() is applied before any comparison), and in every
case the stored buyer is the trimmed text of one of the competitor fields
or the sentinel; only the equality comparison additionally applies the
suffix-stripping normalization.
-/
theorem C9_trimmed_buyer :
    (∀ (shipper dom : Option String) (v : String),
      pyStrip v ≠ "" →
      clean_name (pyStrip v) ≠
        clean_name (match shipper with | some u => pyStrip u | none => "") →
      determine_buyer shipper (some v) dom = pyStrip v) ∧
    (∀ shipper intl dom : Option String,
      determine_buyer shipper intl dom = (match intl with | some v => pyStrip v | none => "") ∨
      determine_buyer shipper intl dom = (match dom with | some v => pyStrip v | none => "") ∨
      determine_buyer shipper intl dom = "Unknown") ∧
    determine_buyer (some "Zeta") (some " Acme ") none = "Acme" := by
  refine ⟨?_, ?_, by decide⟩
  · intro shipper dom v h1 h2
    simp only [determine_buyer]
    generalize hsh : (match shipper with | some u => pyStrip u | none => "") = sh at h2 ⊢
    have hc : ((pyStrip v != "") && (clean_name (pyStrip v) != clean_name sh)) = true := by
      simp [h1, h2]
    rw [if_pos hc]
  · intro shipper intl dom
    simp only [determine_buyer]
    split_ifs <;> first | (left; rfl) | (right; left; rfl) | (right; right; rfl)

/--
C10: a record whose date is null is retained (and so counted) whenever no
date bound is active, but as soon as a valid start or end bound is set the
record is excluded from the filtered set, since a null date satisfies
neither inclusive comparison.
-/
theorem C10_null_date (s : FilterState) (rs : List Record) (r : Record)
    (hd : r.date = none) :
    (parse_date_simple s.startDate = none → parse_date_simple s.endDate = none →
      (r ∈ applyFilters s rs ↔ r ∈ rs ∧ (catDims.all (fun d => matchesDim d s r)) = true)) ∧
    ((parse_date_simple s.startDate).isSome ∨ (parse_date_simple s.endDate).isSome →
      r ∉ applyFilters s rs) := by
  constructor
  · intro h1 h2
    rw [applyFilters_eq_filter]
    simp [List.mem_filter, matchesAll, codeOrder, catDims, h1, h2, matchesDim]
  · intro h
    rw [applyFilters_eq_filter]
    rcases h with h | h
    · obtain ⟨p, hp⟩ := Option.isSome_iff_exists.mp h
      simp [List.mem_filter, matchesAll, codeOrder, matchesDim, hp, hd]
    · obtain ⟨p, hp⟩ := Option.isSome_iff_exists.mp h
      simp [List.mem_filter, matchesAll, codeOrder, matchesDim, hp, hd]

theorem C10_witness :
    ((⟨none, "B", none, "854442", none, none, none, none, none⟩ : Record) ∉
      applyFilters ⟨"01/15/2024", "", none, none, none, none, none⟩
        [(⟨none, "B", none, "854442", none, none, none, none, none⟩ : Record)]) ∧
    ((⟨none, "B", none, "854442", none, none, none, none, none⟩ : Record) ∈
        applyFilters ⟨"", "", none, none, none, none, none⟩
          [(⟨none, "B", none, "854442", none, none, none, none, none⟩ : Record)] ↔
      (⟨none, "B", none, "854442", none, none, none, none, none⟩ : Record) ∈
          [(⟨none, "B", none, "854442", none, none, none, none, none⟩ : Record)] ∧
        (catDims.all (fun d => matchesDim d ⟨"", "", none, none, none, none, none⟩
          (⟨none, "B", none, "854442", none, none, none, none, none⟩ : Record))) = true) :=
  ⟨(C10_null_date ⟨"01/15/2024", "", none, none, none, none, none⟩
      [(⟨none, "B", none, "854442", none, none, none, none, none⟩ : Record)]
      (⟨none, "B", none, "854442", none, none, none, none, none⟩ : Record) rfl).2
    (by decide),
   (C10_null_date ⟨"", "", none, none, none, none, none⟩
      [(⟨none, "B", none, "854442", none, none, none, none, none⟩ : Record)]
      (⟨none, "B", none, "854442", none, none, none, none, none⟩ : Record) rfl).1
    rfl rfl⟩

end Dashboard
